import Mathlib

/-!
Verification of the second_brain_collector repository.

Strings of the Python source are modelled as `List Char`.  Each definition
below is a shallow embedding of one Python function of the repository (or of
the exact behaviour of a Python standard-library call the repository makes,
restricted to the inputs the repository feeds it); the doc comment of each
definition names the source location it embeds.
-/

/-- The character list of a string literal (Python `str` values). -/
def strL (s : String) : List Char := s.toList

/-- Python's whitespace test for `str.strip` / `\s` on ASCII text:
space, tab, newline, carriage return, vertical tab, form feed. -/
def pyIsSpace (c : Char) : Bool :=
  c == ' ' || c == '\t' || c == '\n' || c == '\r' || c == '\x0b' || c == '\x0c'

/-- Python `s.strip()`: drop whitespace from both ends. -/
def pyStrip (s : List Char) : List Char :=
  ((s.dropWhile pyIsSpace).reverse.dropWhile pyIsSpace).reverse

/-- Python `" ".join(parts)`. -/
def joinSpace (parts : List (List Char)) : List Char :=
  List.intercalate [' '] parts

/-- First occurrence of `sep` in `s`: `some (before, after)` where `before`
is the text left of the leftmost occurrence and `after` the text right of it;
`none` when `sep` does not occur.  Helper for Python's `str.split`. -/
def splitOnce (sep : List Char) : List Char → Option (List Char × List Char)
  | [] => none
  | c :: rest =>
    if sep.isPrefixOf (c :: rest) then some ([], (c :: rest).drop sep.length)
    else
      match splitOnce sep rest with
      | none => none
      | some (b, a) => some (c :: b, a)

/-- Python `s.split(sep)` for nonempty `sep`, with explicit fuel (one unit per
produced part; `s.length + 1` always suffices since every separator occurrence
consumes at least one character). -/
def pySplitGo (sep : List Char) : Nat → List Char → List (List Char)
  | _, [] => [[]]
  | 0, s => [s]
  | fuel + 1, s =>
    match splitOnce sep s with
    | none => [s]
    | some (b, a) => b :: pySplitGo sep fuel a

/-- Python `s.split(sep)` for nonempty `sep`. -/
def pySplit (sep s : List Char) : List (List Char) :=
  pySplitGo sep (s.length + 1) s

/-- Python substring membership `sub in s`. -/
def containsSub (sub s : List Char) : Bool :=
  (splitOnce sub s).isSome || sub.isEmpty

/-- Python `range(0, stop, step)` for `step ≥ 1` (the repository only uses
step 1900). -/
def pyRange (stop step : Nat) : List Nat :=
  (List.range ((stop + step - 1) / step)).map (fun i => i * step)

/-- `NotionClient._chunk_text` (src/kindle_highlights/notion_client.py:107):
`[text[i : i + chunk_size] for i in range(0, len(text), chunk_size)]`. -/
def chunk_text_slice (text : List Char) (chunk_size : Nat) : List (List Char) :=
  (pyRange text.length chunk_size).map (fun i => (text.drop i).take chunk_size)

/-- Run accumulator for `splitWS`: `cls` is the whitespace class of the
current run, `run` its characters in reverse order. -/
def splitWSGo (cls : Bool) (run : List Char) : List Char → List (List Char)
  | [] => [run.reverse]
  | c :: rest =>
    if pyIsSpace c == cls then splitWSGo cls (c :: run) rest
    else run.reverse :: splitWSGo (pyIsSpace c) [c] rest

/-- The word splitter of Python `textwrap` for text without tabs and hyphens:
maximal runs of whitespace and of non-whitespace characters, in order. -/
def splitWS : List Char → List (List Char)
  | [] => []
  | c :: rest => splitWSGo (pyIsSpace c) [c] rest

/-- A chunk consisting of whitespace only (Python `chunk.strip() == ''`). -/
def isWSChunk (l : List Char) : Bool := l.all pyIsSpace

/-- The greedy inner loop of `textwrap.TextWrapper._wrap_chunks`: take chunks
onto the current line while the accumulated length stays within `width`.
Returns (chunks of the current line, remaining chunks). -/
def takeGreedy (width : Nat) : Nat → List (List Char) → List (List Char) × List (List Char)
  | _, [] => ([], [])
  | acc, c :: rest =>
    if acc + c.length ≤ width then
      match takeGreedy width (acc + c.length) rest with
      | (line, rem) => (c :: line, rem)
    else ([], c :: rest)

/-- `textwrap` with `drop_whitespace=True`: a trailing whitespace chunk is
removed from the current line. -/
def dropTrailingWS (cur : List (List Char)) : List (List Char) :=
  match cur.getLast? with
  | some last => if isWSChunk last then cur.dropLast else cur
  | none => cur

/-- One line-building iteration of `textwrap.TextWrapper._wrap_chunks` with
`break_long_words=False`, `drop_whitespace=True` (default), repeated with
explicit fuel (each iteration consumes at least one chunk, so fuel equal to
the number of chunks suffices).  `hasLines` records whether a line has been
emitted already (leading whitespace is only dropped after the first line). -/
def wrapGo (width : Nat) : Nat → Bool → List (List Char) → List (List Char)
  | _, _, [] => []
  | 0, _, _ => []
  | fuel + 1, hasLines, c0 :: rest0 =>
    match (if hasLines && isWSChunk c0 then rest0 else c0 :: rest0) with
    | [] => []
    | chunks =>
      match takeGreedy width 0 chunks with
      | (cur0, rest) =>
        match
          (match cur0, rest with
           | [], r :: rs => if width < r.length then ([r], rs) else ([], r :: rs)
           | cur, rem => (cur, rem)) with
        | (cur1, rest1) =>
          match dropTrailingWS cur1 with
          | [] => wrapGo width fuel hasLines rest1
          | l :: ls => (l :: ls).flatten :: wrapGo width fuel true rest1

/-- `YouTubeTranscriptFetcher.chunk_text`
(src/youtube_transcripts/youtube_transcript_fetcher.py:32 and
src/youtube_transcripts/src/youtube_transcript_fetcher.py:31):
`textwrap.wrap(text, width=chunk_size, replace_whitespace=False,
break_long_words=False)`, modelled for text without tabs and hyphens. -/
def chunk_text (text : List Char) (chunk_size : Nat) : List (List Char) :=
  wrapGo chunk_size (text.length + 1) false (splitWS text)

/-- Python `re.findall(r"> (.*?)(?:\n\n|$)", content, re.DOTALL)`, inner
matcher: starting right after a `"> "` marker, capture the lazy `(.*?)` group:
the shortest run of characters (newlines included, `re.DOTALL`) up to a
`"\n\n"` terminator (consumed, tried first) or a `$` position (end of the
string, or just before a single trailing newline).  Returns the captured
group and the remaining text after the match. -/
def grabSection : List Char → List Char × List Char
  | [] => ([], [])
  | ['\n'] => ([], ['\n'])
  | '\n' :: '\n' :: rest => ([], rest)
  | c :: rest =>
    match grabSection rest with
    | (g, r) => (c :: g, r)

/-- Python `re.findall(r"> (.*?)(?:\n\n|$)", content, re.DOTALL)`
(src/kindle_highlights/extract_quotes.py:28): scan for each `"> "`
occurrence and capture its section.  Fuel: each match consumes at least the
two marker characters, so `content.length + 1` suffices. -/
def findSectionsGo : Nat → List Char → List (List Char)
  | 0, _ => []
  | _ + 1, [] => []
  | fuel + 1, '>' :: ' ' :: rest =>
    match grabSection rest with
    | (g, r) => g :: findSectionsGo fuel r
  | fuel + 1, _ :: rest => findSectionsGo fuel rest

/-- All regex sections of the highlights body, in order. -/
def findSections (content : List Char) : List (List Char) :=
  findSectionsGo (content.length + 1) content

/-- Python `file.readlines()`: the lines of the content, each keeping its
trailing newline; a final fragment without a newline is kept, an empty one
is not.  `acc` holds the current line in reverse. -/
def pyReadlinesGo (acc : List Char) : List Char → List (List Char)
  | [] => if acc.isEmpty then [] else [acc.reverse]
  | '\n' :: rest => (acc.reverse ++ ['\n']) :: pyReadlinesGo [] rest
  | c :: rest => pyReadlinesGo (c :: acc) rest

/-- Python `file.readlines()` on the whole file content. -/
def pyReadlines (content : List Char) : List (List Char) :=
  pyReadlinesGo [] content

/-- Python `s.split(":", 1)[0]`: the text before the first colon, the whole
string when there is none. -/
def splitColonFirst (s : List Char) : List Char :=
  match splitOnce [':'] s with
  | none => s
  | some (b, _) => b

/-- `section.strip().split("\n")` (src/kindle_highlights/extract_quotes.py:32). -/
def sectionLines (s : List Char) : List (List Char) :=
  pySplit ['\n'] (pyStrip s)

/-- `section_lines[0].strip()` (src/kindle_highlights/extract_quotes.py:33):
the quote text of a section before truncation. -/
def rawQuoteOfSection (s : List Char) : List Char :=
  pyStrip ((sectionLines s).getD 0 [])

/-- The quote of a section (src/kindle_highlights/extract_quotes.py:33-36):
truncated to 1997 characters plus `"..."` when longer than 2000. -/
def quoteOfSection (s : List Char) : List Char :=
  let quote := rawQuoteOfSection s
  if 2000 < quote.length then quote.take 1997 ++ strL "..." else quote

/-- The note of a section (src/kindle_highlights/extract_quotes.py:40-43):
the second line when it starts with `"-"`, with marker and whitespace
stripped; empty otherwise. -/
def noteOfSection (s : List Char) : List Char :=
  let ls := sectionLines s
  if 1 < ls.length then
    let l1 := pyStrip (ls.getD 1 [])
    if l1.headD ' ' == '-' then pyStrip (l1.drop 1) else []
  else []

/-- `extract_quotes_from_file` (src/kindle_highlights/extract_quotes.py:5-45).
`stem` models `Path(filename).stem`; `content` is the file's text, so
`lines = content.readlines()` and `"".join(lines) = content`.  The
`try/except (IndexError, AttributeError)` around the metadata reads fires
exactly when the file has fewer than 8 lines (string operations there cannot
raise otherwise). -/
def extract_quotes_from_file (stem content : List Char) :
    List Char × List (List Char) × List (List Char) × List Char :=
  let lines := pyReadlines content
  let ta :=
    if 8 ≤ lines.length then
      (pyStrip (splitColonFirst ((pyStrip (lines.getD 6 [])).drop 9)),
       pyStrip ((pyStrip (lines.getD 7 [])).drop 10))
    else (stem, strL "Unknown")
  let sections := findSections content
  (content, sections.map quoteOfSection, sections.map noteOfSection,
   ta.2 ++ strL " - " ++ ta.1)

/-- URL pattern of the first branch of `_extract_video_id`. -/
def watchPat : List Char := strL "youtube.com/watch?v="

/-- URL pattern of the second branch of `_extract_video_id`. -/
def bePat : List Char := strL "youtu.be/"

/-- URL pattern of the third branch of `_extract_video_id`. -/
def shortsPat : List Char := strL "youtube.com/shorts/"

/-- `_extract_video_id`
(src/youtube_transcripts/src/youtube_transcript_fetcher.py:80-88), the same
logic appearing inline in `YouTubeTranscriptFetcher.get_youtube_transcript`
(src/youtube_transcripts/youtube_transcript_fetcher.py:63-68). -/
def extract_video_id (video_link : List Char) : Option (List Char) :=
  if containsSub watchPat video_link then
    some ((pySplit (strL "&") ((pySplit (strL "v=") video_link).getD 1 [])).getD 0 [])
  else if containsSub bePat video_link then
    some ((pySplit (strL "?") ((pySplit bePat video_link).getD 1 [])).getD 0 [])
  else if containsSub shortsPat video_link then
    some ((pySplit (strL "?") ((pySplit (strL "shorts/") video_link).getD 1 [])).getD 0 [])
  else none

/-- One transcript track of the external `youtube_transcript_api` service:
its language code, whether it is auto-generated, the segment texts its
`fetch()` returns (`none` models a raised exception), and the segment texts
`translate("en").fetch()` returns (`none` models a raised exception). -/
structure TranscriptTrack where
  language_code : List Char
  is_generated : Bool
  fetch : Option (List (List Char))
  translateFetchEn : Option (List (List Char))
deriving DecidableEq

/-- The behaviour of the external transcript service for one run, keyed by
video id: `YouTubeTranscriptApi.get_transcript(video_id, languages=["en"])`
(`none` models a raised exception) and
`YouTubeTranscriptApi.list_transcripts(video_id)` (`Except.error msg` models
an exception with message `msg`). -/
structure TranscriptService where
  getTranscriptEn : List Char → Option (List (List Char))
  listTranscripts : List Char → Except (List Char) (List TranscriptTrack)

/-- First loop of the language fallback
(src/youtube_transcripts/youtube_transcript_fetcher.py:89-117, equivalently
`_get_fallback_transcript` with `_fetch_and_translate_transcript`,
src/youtube_transcripts/src/youtube_transcript_fetcher.py:96-101,115-137):
find the first auto-generated track whose `fetch()` succeeds; when its
language is not `"en"`, try `translate("en").fetch()` and keep the
untranslated text if that fails.  Per-track failures continue the scan. -/
def scanGenerated : List TranscriptTrack → Option (List Char)
  | [] => none
  | t :: rest =>
    if t.is_generated then
      match t.fetch with
      | none => scanGenerated rest
      | some segs =>
        some (if t.language_code != strL "en" then
                match t.translateFetchEn with
                | some ts => joinSpace ts
                | none => joinSpace segs
              else joinSpace segs)
    else scanGenerated rest

/-- Second loop of the language fallback
(src/youtube_transcripts/youtube_transcript_fetcher.py:120-129): the first
track of any kind whose `fetch()` succeeds. -/
def scanManual : List TranscriptTrack → Option (List Char)
  | [] => none
  | t :: rest =>
    match t.fetch with
    | some segs => some (joinSpace segs)
    | none => scanManual rest

/-- `YouTubeTranscriptFetcher.get_youtube_transcript`
(src/youtube_transcripts/youtube_transcript_fetcher.py:48-137, equivalently
`get_youtube_transcript` of
src/youtube_transcripts/src/youtube_transcript_fetcher.py:47-77 with its
helpers).  `if not video_id` is Python falsiness: it also catches the empty
string. -/
def get_youtube_transcript (svc : TranscriptService) (video_link : List Char) : List Char :=
  match extract_video_id video_link with
  | none => strL "Error: Invalid YouTube URL format"
  | some vid =>
    if vid.isEmpty then strL "Error: Invalid YouTube URL format"
    else
      match svc.getTranscriptEn vid with
      | some parts => joinSpace parts
      | none =>
        match svc.listTranscripts vid with
        | Except.error msg => strL "Error: No transcripts available: " ++ msg
        | Except.ok tracks =>
          match scanGenerated tracks with
          | some text => text
          | none =>
            match scanManual tracks with
            | some text => text
            | none => strL "Error: No usable transcript found in any language"

/-- The transcript texts obtainable from the service for video `vid`: the
preferred-language fetch, or a fetched track's text, possibly translated.
Every non-`"Error..."` return of `get_youtube_transcript` is one of these. -/
def FetchedOutcome (svc : TranscriptService) (vid r : List Char) : Prop :=
  (∃ parts, svc.getTranscriptEn vid = some parts ∧ r = joinSpace parts) ∨
  (∃ tracks, svc.listTranscripts vid = Except.ok tracks ∧
    ∃ t ∈ tracks, ∃ segs, t.fetch = some segs ∧
      (r = joinSpace segs ∨
       ∃ ts, t.translateFetchEn = some ts ∧ r = joinSpace ts))

/-- `transcript.startswith("Error")`, the failure test of the orchestrator
(src/youtube_transcripts/main.py:37). -/
def transcriptFailed (transcript : List Char) : Bool :=
  (strL "Error").isPrefixOf transcript

/-- The per-item tail of `main` (src/youtube_transcripts/main.py:35-51):
a transcript that passes `startswith("Error")` is skipped (`none`, no page
update); otherwise the page is updated with the 1900-chunks and the update's
success is reported. -/
def processTranscript (updatePage : List (List Char) → Bool) (transcript : List Char) :
    Option Bool :=
  if transcriptFailed transcript then none
  else some (updatePage (chunk_text transcript 1900))

/-- Python `enumerate(it, start)`. -/
def pyEnumerate (start : Nat) : List α → List (Nat × α)
  | [] => []
  | a :: rest => (start, a) :: pyEnumerate (start + 1) rest

/-- `list(enumerate(zip(quotes, notes), 1))`
(src/kindle_highlights/notion_client.py:235): the work items submitted to the
thread pool, each carrying its 1-based index. -/
def quoteItems (quotes notes : List (List Char)) : List (Nat × List Char × List Char) :=
  pyEnumerate 1 (quotes.zip notes)

/-- `NotionClient.add_quotes_to_database`
(src/kindle_highlights/notion_client.py:192-240).  `create i quote note`
models the success of the one page-creation POST issued for item `i`
(`add_single_quote`); `executor.map` collects the per-item booleans in
submission order and `sum(results)` counts the `True`s. -/
def add_quotes_to_database (create : Nat → List Char → List Char → Bool)
    (quotes notes : List (List Char)) : Nat :=
  ((quoteItems quotes notes).map (fun it => create it.1 it.2.1 it.2.2)).foldl
    (fun s b => s + (if b then 1 else 0)) 0

/-- One remote call of the YouTube-pipeline `NotionClient`, as an event:
listing the page's children, deleting one block (with the call's success),
or the single batched children append with its payload of
`(block type, text)` pairs. -/
inductive NotionEvent where
  | getChildren : NotionEvent
  | deleteBlock : List Char → Bool → NotionEvent
  | appendChildren : List (List Char × List Char) → NotionEvent
deriving DecidableEq

/-- The paragraph block built for one chunk
(src/youtube_transcripts/notion_client.py:94-101), reduced to its
(type, text content) pair. -/
def paragraphBlock (chunk : List Char) : List Char × List Char :=
  (strL "paragraph", chunk)

/-- `NotionClient.clear_page_content`
(src/youtube_transcripts/notion_client.py:46-74).  `getChildren` is the
result of the children GET (`none` models a non-200 status), `deleteBlock`
the per-block success of the DELETE calls, whose failures are only printed.
Returns the boolean result and the trace of remote calls. -/
def clear_page_content (getChildren : Option (List (List Char)))
    (deleteBlock : List Char → Bool) : Bool × List NotionEvent :=
  match getChildren with
  | none => (false, [NotionEvent.getChildren])
  | some blocks =>
    (true, NotionEvent.getChildren ::
      blocks.map (fun b => NotionEvent.deleteBlock b (deleteBlock b)))

/-- `NotionClient.update_page_with_transcript`
(src/youtube_transcripts/notion_client.py:76-114).  `appendOk` models the
success of the single batched children PATCH.  Returns the boolean result
and the trace of remote calls. -/
def update_page_with_transcript (getChildren : Option (List (List Char)))
    (deleteBlock : List Char → Bool) (appendOk : List (List Char × List Char) → Bool)
    (transcript_chunks : List (List Char)) : Bool × List NotionEvent :=
  match clear_page_content getChildren deleteBlock with
  | (ok, ev) =>
    if ok then
      (appendOk (transcript_chunks.map paragraphBlock),
       ev ++ [NotionEvent.appendChildren (transcript_chunks.map paragraphBlock)])
    else (false, ev)

/-- A highlights file whose line at index 6 is `"Title: Daily Stoic: 366..."`
and line at index 7 is `"Author: Ryan Holiday"`, with a body consisting of the
block `"> First quote"` / `"- a note"`, a blank line, then `"> Second quote"`. -/
def c5content : List Char :=
  strL "l0\nl1\nl2\nl3\nl4\nl5\nTitle: Daily Stoic: 366...\nAuthor: Ryan Holiday\n\n> First quote\n- a note\n\n> Second quote\n"

/-- A service whose preferred-language fetch succeeds with a transcript whose
own text happens to begin with `"Error"`. -/
def svcAmbiguous : TranscriptService :=
  ⟨fun _ => some [strL "Error", strL "codes", strL "explained"],
   fun _ => Except.error []⟩

/-- A service whose preferred-language fetch succeeds with a transcript whose
text is exactly the invalid-URL failure sentinel. -/
def svcSpoof : TranscriptService :=
  ⟨fun _ => some [strL "Error:", strL "Invalid", strL "YouTube", strL "URL", strL "format"],
   fun _ => Except.error []⟩

/-- A well-formed video URL for the demonstration services. -/
def urlDemo : List Char := strL "https://youtu.be/abc"

/-! ## Chunking lemmas (kindle raw slicing) -/

theorem pyRange_succ (n step : Nat) (hn : 0 < n) (hs : 0 < step) :
    pyRange n step = 0 :: (pyRange (n - step) step).map (fun i => i + step) := by
  unfold pyRange
  have h1 : (n + step - 1) / step = (n - 1) / step + 1 := by
    have e : n + step - 1 = (n - 1) + step := by omega
    rw [e, Nat.add_div_right _ hs]
  have h2 : (n - step + step - 1) / step = (n - 1) / step := by
    rcases le_or_lt n step with h | h
    · have e1 : n - step = 0 := by omega
      rw [e1]
      have e2 : (0 + step - 1) / step = 0 := Nat.div_eq_of_lt (by omega)
      have e3 : (n - 1) / step = 0 := Nat.div_eq_of_lt (by omega)
      rw [e2, e3]
    · have e1 : n - step + step - 1 = n - 1 := by omega
      rw [e1]
  rw [h1, h2, List.range_succ_eq_map, List.map_cons, List.map_map, List.map_map,
    Nat.zero_mul]
  refine congrArg (fun l => 0 :: l) ?_
  refine List.map_congr_left ?_
  intro i _
  simp [Nat.succ_mul, Function.comp]

theorem chunk_text_slice_nil (k : Nat) (hk : 0 < k) : chunk_text_slice [] k = [] := by
  unfold chunk_text_slice pyRange
  have e : (List.length ([] : List Char) + k - 1) / k = 0 := Nat.div_eq_of_lt (by simp; omega)
  rw [e]
  simp

theorem chunk_text_slice_cons (text : List Char) (k : Nat) (ht : text ≠ []) (hk : 0 < k) :
    chunk_text_slice text k = text.take k :: chunk_text_slice (text.drop k) k := by
  unfold chunk_text_slice
  rw [pyRange_succ _ _ (List.length_pos.mpr ht) hk, List.map_cons, List.map_map]
  rw [List.length_drop]
  refine congrArg₂ (fun a l => a :: l) (by simp) ?_
  refine List.map_congr_left ?_
  intro i _
  simp [Function.comp, List.drop_drop, Nat.add_comm]

theorem chunk_text_slice_flatten (k : Nat) (hk : 0 < k) (text : List Char) :
    (chunk_text_slice text k).flatten = text := by
  have main : ∀ n (t : List Char), t.length ≤ n → (chunk_text_slice t k).flatten = t := by
    intro n
    induction n with
    | zero =>
      intro t h
      have : t = [] := List.eq_nil_of_length_eq_zero (Nat.le_zero.mp h)
      rw [this, chunk_text_slice_nil k hk]
      rfl
    | succ n ih =>
      intro t h
      by_cases ht : t = []
      · rw [ht, chunk_text_slice_nil k hk]; rfl
      · rw [chunk_text_slice_cons t k ht hk, List.flatten_cons,
          ih (t.drop k) (by rw [List.length_drop]; have := List.length_pos.mpr ht; omega),
          List.take_append_drop]
  exact main text.length text (Nat.le_refl _)

theorem chunk_text_slice_bound (k : Nat) (text : List Char) :
    ∀ c ∈ chunk_text_slice text k, c.length ≤ k := by
  intro c hc
  unfold chunk_text_slice at hc
  rcases List.mem_map.mp hc with ⟨i, _, rfl⟩
  rw [List.length_take]
  omega

/-! ## Chunking lemmas (youtube textwrap wrap) -/

theorem splitWSGo_replicate (a : Char) (n : Nat) :
    ∀ (cls : Bool) (run : List Char), pyIsSpace a = cls →
      splitWSGo cls run (List.replicate n a) = [run.reverse ++ List.replicate n a] := by
  induction n with
  | zero => intro cls run _; simp [splitWSGo]
  | succ n ih =>
    intro cls run hcls
    rw [List.replicate_succ]
    unfold splitWSGo
    rw [if_pos (by rw [hcls]; simp)]
    rw [ih cls (a :: run) hcls]
    simp

theorem splitWS_replicate (a : Char) (n : Nat) :
    splitWS (List.replicate (n + 1) a) = [List.replicate (n + 1) a] := by
  rw [List.replicate_succ]
  simp only [splitWS]
  rw [splitWSGo_replicate a n (pyIsSpace a) [a] rfl]
  simp [List.replicate_succ]

theorem wrapGo_single_long (width f : Nat) (w : List Char)
    (hlen : width < w.length) (hws : isWSChunk w = false) :
    wrapGo width (f + 1) false [w] = [w] := by
  have h1 : ¬ (0 + w.length ≤ width) := by omega
  simp only [wrapGo, Bool.false_and, if_neg (Bool.false_ne_true), takeGreedy, if_neg h1,
    if_pos hlen, dropTrailingWS]
  simp [hws, wrapGo]

-- scratch
example : True := trivial

/-- C1 counterexample.  The claim asserts the three chunking properties for
both implementations with bound 1900, but the youtube `chunk_text`
(textwrap word-wrap) violates two of them: on `"a "` the trailing whitespace
is dropped, so concatenating the chunks does not reconstruct the input; and
a whitespace-free run of 1901 characters is returned as a single chunk of
length 1901 > 1900 (`break_long_words=False`). -/
theorem c1_counterexample :
    (chunk_text (strL "a ") 1900).flatten ≠ strL "a " ∧
    chunk_text (List.replicate 1901 'a') 1900 = [List.replicate 1901 'a'] ∧
    1900 < (List.replicate 1901 'a').length := by
  refine ⟨by decide, ?_, by rw [List.length_replicate]; omega⟩
  unfold chunk_text
  rw [splitWS_replicate 'a' 1900, List.length_replicate]
  refine wrapGo_single_long 1900 1901 _ (by rw [List.length_replicate]; omega) ?_
  rw [List.replicate_succ]
  show (('a' :: List.replicate 1900 'a').all pyIsSpace) = false
  rw [List.all_cons]
  have ha : pyIsSpace 'a' = false := by decide
  rw [ha, Bool.false_and]

/-- C1, amended.  The kindle `NotionClient._chunk_text` (raw slicing, bound
1900) satisfies all three claimed properties: concatenating the chunks in
order reconstructs the input, every chunk has length at most 1900, and the
empty string yields the empty sequence.  The youtube
`YouTubeTranscriptFetcher.chunk_text` (textwrap word-wrap) yields the empty
sequence on empty input, but need not satisfy the other two properties. -/
theorem c1_chunking_amended :
    (∀ text : List Char, (chunk_text_slice text 1900).flatten = text) ∧
    (∀ text : List Char, ∀ c ∈ chunk_text_slice text 1900, c.length ≤ 1900) ∧
    chunk_text_slice [] 1900 = [] ∧
    chunk_text [] 1900 = [] :=
  ⟨chunk_text_slice_flatten 1900 (by omega),
   fun text => chunk_text_slice_bound 1900 text,
   chunk_text_slice_nil 1900 (by omega),
   rfl⟩

/-- C1 witness: the amended theorem at the concrete text `"brain"`. -/
theorem c1_chunking_witness :
    (chunk_text_slice (strL "brain") 1900).flatten = strL "brain" ∧
    (strL "brain").length ≤ 1900 :=
  ⟨c1_chunking_amended.1 (strL "brain"),
   c1_chunking_amended.2.1 (strL "brain") (strL "brain") (by decide)⟩

/-! ## Splitting lemmas (Python str.split and substring membership) -/

theorem containsSub_eq (sep s : List Char) (hsep : sep ≠ []) :
    containsSub sep s = (splitOnce sep s).isSome := by
  unfold containsSub
  cases sep with
  | nil => exact absurd rfl hsep
  | cons c cs => simp [List.isEmpty]

theorem splitOnce_isSome_cons (sep t : List Char) (c : Char)
    (h : (splitOnce sep t).isSome) : (splitOnce sep (c :: t)).isSome := by
  unfold splitOnce
  by_cases hp : sep.isPrefixOf (c :: t)
  · rw [if_pos hp]; rfl
  · rw [if_neg hp]
    rcases ho : splitOnce sep t with _ | ba
    · rw [ho] at h; exact absurd h (by simp)
    · rcases ba with ⟨b, a⟩; simp

theorem splitOnce_of_prefix (sep u : List Char) (hsep : sep ≠ []) :
    splitOnce sep (sep ++ u) = some ([], u) := by
  cases sep with
  | nil => exact absurd rfl hsep
  | cons c cs =>
    show splitOnce (c :: cs) (c :: (cs ++ u)) = some ([], u)
    unfold splitOnce
    rw [if_pos (List.isPrefixOf_iff_prefix.mpr (by exact List.prefix_append _ _))]
    rw [show ((c :: (cs ++ u)).drop (c :: cs).length) = u from by
      simp [List.drop_left]]

theorem splitOnce_isSome_append (sep a b : List Char) (hsep : sep ≠ []) :
    (splitOnce sep (a ++ sep ++ b)).isSome := by
  induction a with
  | nil => rw [List.nil_append, splitOnce_of_prefix sep b hsep]; rfl
  | cons c a ih => exact splitOnce_isSome_cons sep _ c ih

theorem splitOnce_clean (sep pre rest : List Char) (hsep : sep ≠ [])
    (hclean : containsSub sep (pre ++ sep.dropLast) = false) :
    splitOnce sep (pre ++ sep ++ rest) = some (pre, rest) := by
  induction pre with
  | nil => rw [List.nil_append, splitOnce_of_prefix sep rest hsep]
  | cons c pre ih =>
    have hlast : sep.dropLast ++ [sep.getLast hsep] = sep := List.dropLast_append_getLast hsep
    have hnotpre : ¬ sep.isPrefixOf ((c :: pre) ++ sep ++ rest) := by
      intro hp
      have hp1 : sep <+: ((c :: pre) ++ sep ++ rest) := List.isPrefixOf_iff_prefix.mp hp
      have hp2 : ((c :: pre) ++ sep.dropLast) <+: ((c :: pre) ++ sep ++ rest) := by
        refine ⟨[sep.getLast hsep] ++ rest, ?_⟩
        rw [List.append_assoc, List.append_assoc, ← List.append_assoc sep.dropLast, hlast]
      have hlen : sep.length ≤ ((c :: pre) ++ sep.dropLast).length := by
        rw [List.length_append, List.length_cons, List.length_dropLast]
        have : 1 ≤ sep.length := List.length_pos.mpr hsep
        omega
      have hp3 : sep <+: ((c :: pre) ++ sep.dropLast) :=
        List.prefix_of_prefix_length_le hp1 hp2 hlen
      rcases hp3 with ⟨u, hu⟩
      have : (splitOnce sep ((c :: pre) ++ sep.dropLast)).isSome := by
        rw [← hu, splitOnce_of_prefix sep u hsep]; rfl
      rw [containsSub_eq sep _ hsep, this] at hclean
      simp at hclean
    have hclean2 : containsSub sep (pre ++ sep.dropLast) = false := by
      rw [containsSub_eq sep _ hsep]
      rcases ho : (splitOnce sep (pre ++ sep.dropLast)).isSome with _ | _
      · rfl
      · have := splitOnce_isSome_cons sep (pre ++ sep.dropLast) c ho
        rw [containsSub_eq sep _ hsep] at hclean
        rw [show (c :: (pre ++ sep.dropLast)) = ((c :: pre) ++ sep.dropLast) from rfl] at this
        rw [this] at hclean
        simp at hclean
    show splitOnce sep (c :: (pre ++ sep ++ rest)) = some (c :: pre, rest)
    unfold splitOnce
    rw [if_neg (by exact hnotpre)]
    rw [ih hclean2]

theorem pySplitGo_no_occ (sep s : List Char) (f : Nat)
    (h : containsSub sep s = false) : pySplitGo sep f s = [s] := by
  have hsep : sep ≠ [] := by
    intro he
    rw [he] at h
    unfold containsSub at h
    simp [List.isEmpty] at h
  have hnone : splitOnce sep s = none := by
    rw [containsSub_eq sep s hsep] at h
    rcases ho : splitOnce sep s with _ | ba
    · rfl
    · rw [ho] at h; exact absurd h (by simp)
  cases s with
  | nil => cases f <;> rfl
  | cons c t =>
    cases f with
    | zero => rfl
    | succ f => unfold pySplitGo; rw [hnone]

theorem pySplitGo_occ (sep s b a : List Char) (f : Nat)
    (h : splitOnce sep s = some (b, a)) :
    pySplitGo sep (f + 1) s = b :: pySplitGo sep f a := by
  cases s with
  | nil => rw [show splitOnce sep [] = none from rfl] at h; exact absurd h (by simp)
  | cons c t =>
    show (match splitOnce sep (c :: t) with
          | none => [c :: t]
          | some (b, a) => b :: pySplitGo sep f a) = b :: pySplitGo sep f a
    rw [h]

theorem pySplit_clean_getD1 (sep pre rest : List Char) (hsep : sep ≠ [])
    (hclean : containsSub sep (pre ++ sep.dropLast) = false)
    (hrest : containsSub sep rest = false) :
    (pySplit sep (pre ++ sep ++ rest)).getD 1 [] = rest := by
  unfold pySplit
  rw [pySplitGo_occ sep _ pre rest _ (splitOnce_clean sep pre rest hsep hclean)]
  rw [List.getD_cons_succ]
  rw [pySplitGo_no_occ sep rest _ hrest]
  rfl

theorem containsSub_single_not_mem (c : Char) (s : List Char) (h : ¬ c ∈ s) :
    containsSub [c] s = false := by
  induction s with
  | nil => rfl
  | cons d t ih =>
    have hcd : ¬ c = d := fun he => h (he ▸ List.mem_cons_self d t)
    have hic : containsSub [c] t = false := ih (fun hm => h (List.mem_cons_of_mem d hm))
    rw [containsSub_eq _ _ (by simp)] at hic ⊢
    unfold splitOnce
    rw [if_neg (by
      intro hp
      rcases List.isPrefixOf_iff_prefix.mp hp with ⟨u, hu⟩
      rw [List.cons_append, List.nil_append] at hu
      exact hcd (List.cons.injEq .. ▸ hu).1)]
    rcases ho : splitOnce [c] t with _ | ba
    · rfl
    · rw [ho] at hic; exact absurd hic (by simp)

theorem pySplit_id_getD0 (sepc : Char) (id post : List Char) (hid : ¬ sepc ∈ id)
    (hpost : post = [] ∨ ∃ p, post = sepc :: p) :
    (pySplit [sepc] (id ++ post)).getD 0 [] = id := by
  rcases hpost with rfl | ⟨p, rfl⟩
  · rw [List.append_nil]
    unfold pySplit
    rw [pySplitGo_no_occ [sepc] id _ (containsSub_single_not_mem sepc id hid)]
    rfl
  · have he : id ++ sepc :: p = id ++ [sepc] ++ p := by simp
    rw [he]
    unfold pySplit
    rw [pySplitGo_occ [sepc] _ id p _ (splitOnce_clean [sepc] id p (by simp) (by
      rw [show ([sepc] : List Char).dropLast = [] from rfl, List.append_nil]
      exact containsSub_single_not_mem sepc id hid))]
    rfl

/-- C2.  Video-ID extraction on the three recognized URL shapes
(`.../watch?v=ID[&...]`, `youtu.be/ID[?...]`, `.../shorts/ID[?...]`, with the
ID containing no `'&'` or `'?'` and the pattern not occurring spuriously
earlier in the URL) returns exactly the ID, and any URL containing none of
the three patterns yields `none`. -/
theorem c2_video_id :
    (∀ pre id post : List Char,
      containsSub (strL "v=") (pre ++ watchPat.dropLast) = false →
      containsSub (strL "v=") (id ++ post) = false →
      ¬ '&' ∈ id → ¬ '?' ∈ id →
      (post = [] ∨ ∃ p, post = '&' :: p) →
      extract_video_id (pre ++ watchPat ++ id ++ post) = some id) ∧
    (∀ pre id post : List Char,
      containsSub watchPat (pre ++ bePat ++ id ++ post) = false →
      containsSub bePat (pre ++ bePat.dropLast) = false →
      containsSub bePat (id ++ post) = false →
      ¬ '&' ∈ id → ¬ '?' ∈ id →
      (post = [] ∨ ∃ p, post = '?' :: p) →
      extract_video_id (pre ++ bePat ++ id ++ post) = some id) ∧
    (∀ pre id post : List Char,
      containsSub watchPat (pre ++ shortsPat ++ id ++ post) = false →
      containsSub bePat (pre ++ shortsPat ++ id ++ post) = false →
      containsSub (strL "shorts/") (pre ++ shortsPat.dropLast) = false →
      containsSub (strL "shorts/") (id ++ post) = false →
      ¬ '&' ∈ id → ¬ '?' ∈ id →
      (post = [] ∨ ∃ p, post = '?' :: p) →
      extract_video_id (pre ++ shortsPat ++ id ++ post) = some id) ∧
    (∀ url : List Char,
      containsSub watchPat url = false →
      containsSub bePat url = false →
      containsSub shortsPat url = false →
      extract_video_id url = none) := by
  refine ⟨?watch, ?be, ?shorts, ?noneCase⟩
  case watch =>
    intro pre id post hclean hrest hamp hq hpost
    have hurl : pre ++ watchPat ++ id ++ post =
        (pre ++ strL "youtube.com/watch?") ++ strL "v=" ++ (id ++ post) := by
      rw [show watchPat = strL "youtube.com/watch?" ++ strL "v=" from by decide]
      simp [List.append_assoc]
    have htest : containsSub watchPat (pre ++ watchPat ++ id ++ post) = true := by
      rw [containsSub_eq _ _ (by decide),
        show pre ++ watchPat ++ id ++ post = pre ++ watchPat ++ (id ++ post) from by
          simp [List.append_assoc]]
      have h := splitOnce_isSome_append watchPat pre (id ++ post) (by decide)
      rcases ho : splitOnce watchPat (pre ++ watchPat ++ (id ++ post)) with _ | ba
      · rw [ho] at h; exact absurd h (by simp)
      · rfl
    have hclean2 : containsSub (strL "v=")
        ((pre ++ strL "youtube.com/watch?") ++ (strL "v=").dropLast) = false := by
      rw [List.append_assoc,
        show strL "youtube.com/watch?" ++ (strL "v=").dropLast = watchPat.dropLast from by
          decide]
      exact hclean
    have hgetd1 : (pySplit (strL "v=") (pre ++ watchPat ++ id ++ post)).getD 1 [] =
        id ++ post := by
      rw [hurl]
      exact pySplit_clean_getD1 (strL "v=") (pre ++ strL "youtube.com/watch?")
        (id ++ post) (by decide) hclean2 hrest
    have hgetd0 : (pySplit (strL "&") (id ++ post)).getD 0 [] = id := by
      rw [show (strL "&") = ['&'] from by decide]
      exact pySplit_id_getD0 '&' id post hamp hpost
    unfold extract_video_id
    rw [htest, if_pos rfl, hgetd1, hgetd0]
  case be =>
    intro pre id post hwatch hclean hrest hamp hq hpost
    have htest : containsSub bePat (pre ++ bePat ++ id ++ post) = true := by
      rw [containsSub_eq _ _ (by decide),
        show pre ++ bePat ++ id ++ post = pre ++ bePat ++ (id ++ post) from by
          simp [List.append_assoc]]
      have h := splitOnce_isSome_append bePat pre (id ++ post) (by decide)
      rcases ho : splitOnce bePat (pre ++ bePat ++ (id ++ post)) with _ | ba
      · rw [ho] at h; exact absurd h (by simp)
      · rfl
    have hgetd1 : (pySplit bePat (pre ++ bePat ++ id ++ post)).getD 1 [] =
        id ++ post := by
      rw [show pre ++ bePat ++ id ++ post = pre ++ bePat ++ (id ++ post) from by
        simp [List.append_assoc]]
      exact pySplit_clean_getD1 bePat pre (id ++ post) (by decide) hclean hrest
    have hgetd0 : (pySplit (strL "?") (id ++ post)).getD 0 [] = id := by
      rw [show (strL "?") = ['?'] from by decide]
      exact pySplit_id_getD0 '?' id post hq hpost
    unfold extract_video_id
    rw [hwatch, if_neg (by simp), htest, if_pos rfl, hgetd1, hgetd0]
  case shorts =>
    intro pre id post hwatch hbe hclean hrest hamp hq hpost
    have hurl : pre ++ shortsPat ++ id ++ post =
        (pre ++ strL "youtube.com/") ++ strL "shorts/" ++ (id ++ post) := by
      rw [show shortsPat = strL "youtube.com/" ++ strL "shorts/" from by decide]
      simp [List.append_assoc]
    have htest : containsSub shortsPat (pre ++ shortsPat ++ id ++ post) = true := by
      rw [containsSub_eq _ _ (by decide),
        show pre ++ shortsPat ++ id ++ post = pre ++ shortsPat ++ (id ++ post) from by
          simp [List.append_assoc]]
      have h := splitOnce_isSome_append shortsPat pre (id ++ post) (by decide)
      rcases ho : splitOnce shortsPat (pre ++ shortsPat ++ (id ++ post)) with _ | ba
      · rw [ho] at h; exact absurd h (by simp)
      · rfl
    have hclean2 : containsSub (strL "shorts/")
        ((pre ++ strL "youtube.com/") ++ (strL "shorts/").dropLast) = false := by
      rw [List.append_assoc,
        show strL "youtube.com/" ++ (strL "shorts/").dropLast = shortsPat.dropLast from by
          decide]
      exact hclean
    have hgetd1 : (pySplit (strL "shorts/") (pre ++ shortsPat ++ id ++ post)).getD 1 [] =
        id ++ post := by
      rw [hurl]
      exact pySplit_clean_getD1 (strL "shorts/") (pre ++ strL "youtube.com/")
        (id ++ post) (by decide) hclean2 hrest
    have hgetd0 : (pySplit (strL "?") (id ++ post)).getD 0 [] = id := by
      rw [show (strL "?") = ['?'] from by decide]
      exact pySplit_id_getD0 '?' id post hq hpost
    unfold extract_video_id
    rw [hwatch, if_neg (by simp), hbe, if_neg (by simp), htest, if_pos rfl, hgetd1, hgetd0]
  case noneCase =>
    intro url h1 h2 h3
    unfold extract_video_id
    rw [h1, if_neg (by simp), h2, if_neg (by simp), h3, if_neg (by simp)]

/-- C2 witness: the theorem at the spec's concrete example URLs. -/
theorem c2_video_id_witness :
    extract_video_id (strL "https://www.youtube.com/watch?v=abc123&t=5") = some (strL "abc123") ∧
    extract_video_id (strL "https://youtu.be/xyz789?si=foo") = some (strL "xyz789") ∧
    extract_video_id (strL "https://www.youtube.com/shorts/qqq111") = some (strL "qqq111") ∧
    extract_video_id (strL "https://example.com/video") = none := by
  refine ⟨?_, ?_, ?_, ?_⟩
  · have h := c2_video_id.1 (strL "https://www.") (strL "abc123") (strL "&t=5")
      (by decide) (by decide) (by decide) (by decide) (Or.inr ⟨strL "t=5", by decide⟩)
    rw [show strL "https://www." ++ watchPat ++ strL "abc123" ++ strL "&t=5" =
      strL "https://www.youtube.com/watch?v=abc123&t=5" from by decide] at h
    exact h
  · have h := c2_video_id.2.1 (strL "https://") (strL "xyz789") (strL "?si=foo")
      (by decide) (by decide) (by decide) (by decide) (by decide)
      (Or.inr ⟨strL "si=foo", by decide⟩)
    rw [show strL "https://" ++ bePat ++ strL "xyz789" ++ strL "?si=foo" =
      strL "https://youtu.be/xyz789?si=foo" from by decide] at h
    exact h
  · have h := c2_video_id.2.2.1 (strL "https://www.") (strL "qqq111") []
      (by decide) (by decide) (by decide) (by decide) (by decide) (by decide)
      (Or.inl rfl)
    rw [show strL "https://www." ++ shortsPat ++ strL "qqq111" ++ [] =
      strL "https://www.youtube.com/shorts/qqq111" from by decide] at h
    exact h
  · exact c2_video_id.2.2.2 (strL "https://example.com/video")
      (by decide) (by decide) (by decide)

/-! ## Transcript fallback lemmas -/

theorem scanGenerated_skip (pre rest : List TranscriptTrack)
    (hpre : ∀ u ∈ pre, u.is_generated = true → u.fetch = none) :
    scanGenerated (pre ++ rest) = scanGenerated rest := by
  induction pre with
  | nil => rfl
  | cons u pre ih =>
    rw [List.cons_append]
    conv_lhs => unfold scanGenerated
    rcases hg : u.is_generated with _ | _
    · rw [if_neg (by simp [hg])]
      exact ih (fun v hv => hpre v (List.mem_cons_of_mem u hv))
    · rw [if_pos (by simp [hg]),
        hpre u (List.mem_cons_self u pre) hg]
      exact ih (fun v hv => hpre v (List.mem_cons_of_mem u hv))

theorem scanGenerated_sound (tracks : List TranscriptTrack) (r : List Char)
    (h : scanGenerated tracks = some r) :
    ∃ t ∈ tracks, ∃ segs, t.fetch = some segs ∧
      (r = joinSpace segs ∨
       ∃ ts, t.translateFetchEn = some ts ∧ r = joinSpace ts) := by
  induction tracks with
  | nil => exact absurd h (by simp [scanGenerated])
  | cons t rest ih =>
    unfold scanGenerated at h
    rcases hg : t.is_generated with _ | _
    · rw [if_neg (by simp [hg])] at h
      rcases ih h with ⟨u, hu, rest'⟩
      exact ⟨u, List.mem_cons_of_mem t hu, rest'⟩
    · rw [if_pos (by simp [hg])] at h
      rcases hf : t.fetch with _ | segs
      · rw [hf] at h
        rcases ih h with ⟨u, hu, rest'⟩
        exact ⟨u, List.mem_cons_of_mem t hu, rest'⟩
      · rw [hf] at h
        refine ⟨t, List.mem_cons_self t rest, segs, hf, ?_⟩
        rcases hb : (t.language_code != strL "en") with _ | _
        · rw [hb] at h
          simp only [if_neg (by simp : ¬ (false = true))] at h
          exact Or.inl (Option.some.injEq .. ▸ h).symm
        · rw [hb] at h
          simp only [if_pos rfl] at h
          rcases ht : t.translateFetchEn with _ | ts
          · rw [ht] at h
            exact Or.inl (Option.some.injEq .. ▸ h).symm
          · rw [ht] at h
            exact Or.inr ⟨ts, rfl, (Option.some.injEq .. ▸ h).symm⟩

theorem scanManual_sound (tracks : List TranscriptTrack) (r : List Char)
    (h : scanManual tracks = some r) :
    ∃ t ∈ tracks, ∃ segs, t.fetch = some segs ∧ r = joinSpace segs := by
  induction tracks with
  | nil => exact absurd h (by simp [scanManual])
  | cons t rest ih =>
    unfold scanManual at h
    rcases hf : t.fetch with _ | segs
    · rw [hf] at h
      rcases ih h with ⟨u, hu, rest'⟩
      exact ⟨u, List.mem_cons_of_mem t hu, rest'⟩
    · rw [hf] at h
      exact ⟨t, List.mem_cons_self t rest, segs, hf,
        (Option.some.injEq .. ▸ h).symm⟩

/-- C3.  When the preferred-language ("en") fetch fails and the track listing
is `pre ++ t :: post` where every auto-generated track of `pre` fails to
fetch and `t` is auto-generated, fetches successfully and has a non-"en"
language, `get_youtube_transcript` returns `t`'s text: the translated text
when `translate("en").fetch()` succeeds, the untranslated text when it
fails — a translation failure never fails the whole operation. -/
theorem c3_transcript_fallback :
    ∀ (svc : TranscriptService) (url vid : List Char)
      (pre post : List TranscriptTrack) (t : TranscriptTrack)
      (segs : List (List Char)),
      extract_video_id url = some vid → vid ≠ [] →
      svc.getTranscriptEn vid = none →
      svc.listTranscripts vid = Except.ok (pre ++ t :: post) →
      (∀ u ∈ pre, u.is_generated = true → u.fetch = none) →
      t.is_generated = true → t.fetch = some segs →
      t.language_code ≠ strL "en" →
      ((∀ ts, t.translateFetchEn = some ts →
          get_youtube_transcript svc url = joinSpace ts) ∧
       (t.translateFetchEn = none →
          get_youtube_transcript svc url = joinSpace segs)) := by
  intro svc url vid pre post t segs hex hvid hen hlist hpre hgen hfetch hlang
  have hvid2 : vid.isEmpty = false := by
    cases vid with
    | nil => exact absurd rfl hvid
    | cons c cs => rfl
  have hbne : (t.language_code != strL "en") = true := bne_iff_ne.mpr hlang
  have hscan : scanGenerated (pre ++ t :: post) =
      some (match t.translateFetchEn with
            | some ts => joinSpace ts
            | none => joinSpace segs) := by
    rw [scanGenerated_skip pre _ hpre]
    conv_lhs => unfold scanGenerated
    rw [if_pos (by simp [hgen]), hfetch]
    show some (if (t.language_code != strL "en") = true then
          match t.translateFetchEn with
          | some ts => joinSpace ts
          | none => joinSpace segs
        else joinSpace segs) = _
    rw [if_pos hbne]
  have hmain : get_youtube_transcript svc url =
      (match t.translateFetchEn with
       | some ts => joinSpace ts
       | none => joinSpace segs) := by
    simp only [get_youtube_transcript, hex, hvid2, Bool.false_eq_true,
      if_false, hen, hlist, hscan]
  constructor
  · intro ts hts
    rw [hmain, hts]
  · intro hts
    rw [hmain, hts]

/-- C3 witness: a service where the English fetch fails, the first track is a
non-generated red herring and the second is an auto-generated German track;
with a working translation the result is the translated text, and with a
failing translation (after a failing generated track) the untranslated text. -/
theorem c3_transcript_fallback_witness :
    get_youtube_transcript
      ⟨fun _ => none,
       fun _ => Except.ok
         [⟨strL "de", false, some [strL "manuell"], none⟩,
          ⟨strL "de", true, some [strL "hallo", strL "welt"],
            some [strL "hello", strL "world"]⟩]⟩
      urlDemo = strL "hello world" ∧
    get_youtube_transcript
      ⟨fun _ => none,
       fun _ => Except.ok
         [⟨strL "fr", true, none, none⟩,
          ⟨strL "de", true, some [strL "hallo", strL "welt"], none⟩]⟩
      urlDemo = strL "hallo welt" := by
  constructor
  · have h := (c3_transcript_fallback
      ⟨fun _ => none,
       fun _ => Except.ok
         [⟨strL "de", false, some [strL "manuell"], none⟩,
          ⟨strL "de", true, some [strL "hallo", strL "welt"],
            some [strL "hello", strL "world"]⟩]⟩
      urlDemo (strL "abc")
      [⟨strL "de", false, some [strL "manuell"], none⟩] []
      ⟨strL "de", true, some [strL "hallo", strL "welt"],
        some [strL "hello", strL "world"]⟩
      [strL "hallo", strL "welt"]
      (by decide) (by decide) rfl rfl (by decide) rfl rfl (by decide)).1
      [strL "hello", strL "world"] rfl
    exact h.trans (by decide)
  · have h := (c3_transcript_fallback
      ⟨fun _ => none,
       fun _ => Except.ok
         [⟨strL "fr", true, none, none⟩,
          ⟨strL "de", true, some [strL "hallo", strL "welt"], none⟩]⟩
      urlDemo (strL "abc")
      [⟨strL "fr", true, none, none⟩] []
      ⟨strL "de", true, some [strL "hallo", strL "welt"], none⟩
      [strL "hallo", strL "welt"]
      (by decide) (by decide) rfl rfl (by decide) rfl rfl (by decide)).2 rfl
    exact h.trans (by decide)

/-- C4.  For every input URL and every behaviour of the transcript service,
`get_youtube_transcript` is a total function (the model returns for all
inputs) and its result either begins with `"Error"` or is a transcript text
actually obtained from the service — every failure outcome is a string
beginning with `"Error"`. -/
theorem c4_error_sentinel :
    ∀ (svc : TranscriptService) (url : List Char),
      strL "Error" <+: get_youtube_transcript svc url ∨
      ∃ vid, extract_video_id url = some vid ∧
        FetchedOutcome svc vid (get_youtube_transcript svc url) := by
  intro svc url
  rcases hex : extract_video_id url with _ | vid
  · have hres : get_youtube_transcript svc url =
        strL "Error: Invalid YouTube URL format" := by
      simp only [get_youtube_transcript, hex]
    rw [hres]
    exact Or.inl (by decide)
  · rcases hvid : vid.isEmpty with _ | _
    · rcases hen : svc.getTranscriptEn vid with _ | parts
      · rcases hlist : svc.listTranscripts vid with msg | tracks
        · have hres : get_youtube_transcript svc url =
              strL "Error: No transcripts available: " ++ msg := by
            simp only [get_youtube_transcript, hex, hvid, Bool.false_eq_true,
              if_false, hen, hlist]
          rw [hres]
          exact Or.inl ((show strL "Error" <+:
            strL "Error: No transcripts available: " from by decide).trans
            (List.prefix_append _ msg))
        · rcases hscan : scanGenerated tracks with _ | text
          · rcases hman : scanManual tracks with _ | text
            · have hres : get_youtube_transcript svc url =
                  strL "Error: No usable transcript found in any language" := by
                simp only [get_youtube_transcript, hex, hvid, Bool.false_eq_true,
                  if_false, hen, hlist, hscan, hman]
              rw [hres]
              exact Or.inl (by decide)
            · have hres : get_youtube_transcript svc url = text := by
                simp only [get_youtube_transcript, hex, hvid, Bool.false_eq_true,
                  if_false, hen, hlist, hscan, hman]
              rw [hres]
              rcases scanManual_sound tracks text hman with ⟨t, ht, segs, hsegs, hr⟩
              exact Or.inr ⟨vid, rfl, Or.inr ⟨tracks, hlist,
                t, ht, segs, hsegs, Or.inl hr⟩⟩
          · have hres : get_youtube_transcript svc url = text := by
              simp only [get_youtube_transcript, hex, hvid, Bool.false_eq_true,
                if_false, hen, hlist, hscan]
            rw [hres]
            rcases scanGenerated_sound tracks text hscan with ⟨t, ht, segs, hsegs, hr⟩
            exact Or.inr ⟨vid, rfl, Or.inr ⟨tracks, hlist, t, ht, segs, hsegs, hr⟩⟩
      · have hres : get_youtube_transcript svc url = joinSpace parts := by
          simp only [get_youtube_transcript, hex, hvid, Bool.false_eq_true,
            if_false, hen]
        rw [hres]
        exact Or.inr ⟨vid, rfl, Or.inl ⟨parts, hen, rfl⟩⟩
    · have hres : get_youtube_transcript svc url =
          strL "Error: Invalid YouTube URL format" := by
        simp only [get_youtube_transcript, hex, hvid, if_true]
      rw [hres]
      exact Or.inl (by decide)

/-- C5 counterexample.  On a file whose line at index 6 is exactly
`"Title: Daily Stoic: 366..."` and line at index 7 is exactly
`"Author: Ryan Holiday"`, the code does not produce the claimed page title
`"Ryan Holiday - Daily Stoic"`: it unconditionally strips 9 characters from
line 6 (eating `"Title: Da"`) and 10 characters from line 7 (eating
`"Author: Ry"`). -/
theorem c5_counterexample :
    (extract_quotes_from_file (strL "daily_stoic") c5content).2.2.2 ≠
      strL "Ryan Holiday - Daily Stoic" := by decide

/-- C5, amended.  On the claimed file the code yields the quotes
`["First quote", "Second quote"]` and the notes `["a note", ""]` exactly as
claimed, but the page title is `"an Holiday - ily Stoic"` (the 9- and
10-character prefixes are stripped from the unprefixed metadata lines). -/
theorem c5_extraction_amended :
    extract_quotes_from_file (strL "daily_stoic") c5content =
      (c5content,
       [strL "First quote", strL "Second quote"],
       [strL "a note", strL ""],
       strL "an Holiday - ily Stoic") := by decide

/-! ## Quote truncation lemmas -/

theorem dropWhile_eq_self_of_false (p : Char → Bool) (s : List Char)
    (h : ∀ c ∈ s, p c = false) : s.dropWhile p = s := by
  cases s with
  | nil => rfl
  | cons c t =>
    rw [List.dropWhile_cons, if_neg (by rw [h c (List.mem_cons_self c t)]; simp)]

theorem pyStrip_of_no_space (s : List Char) (h : ∀ c ∈ s, pyIsSpace c = false) :
    pyStrip s = s := by
  unfold pyStrip
  rw [dropWhile_eq_self_of_false pyIsSpace s h,
    dropWhile_eq_self_of_false pyIsSpace s.reverse
      (fun c hc => h c (List.mem_reverse.mp hc)),
    List.reverse_reverse]

theorem rawQuoteOfSection_replicate_a (n : Nat) :
    rawQuoteOfSection (List.replicate n 'a') = List.replicate n 'a' := by
  have hns : ∀ c ∈ List.replicate n 'a', pyIsSpace c = false := by
    intro c hc
    rw [List.eq_of_mem_replicate hc]
    decide
  have hnl : ¬ '\n' ∈ List.replicate n 'a' := by
    intro hc
    exact absurd (List.eq_of_mem_replicate hc) (by decide)
  unfold rawQuoteOfSection sectionLines
  rw [pyStrip_of_no_space _ hns]
  unfold pySplit
  rw [pySplitGo_no_occ ['\n'] _ _ (containsSub_single_not_mem '\n' _ hnl)]
  rw [show (List.getD [List.replicate n 'a'] 0 [] : List Char) =
    List.replicate n 'a' from rfl]
  exact pyStrip_of_no_space _ hns

theorem quoteOfSection_long (s : List Char) (h : 2000 < (rawQuoteOfSection s).length) :
    quoteOfSection s = (rawQuoteOfSection s).take 1997 ++ strL "..." ∧
    (quoteOfSection s).length = 2000 := by
  have he : quoteOfSection s = (rawQuoteOfSection s).take 1997 ++ strL "..." := by
    simp only [quoteOfSection]
    rw [if_pos h]
  refine ⟨he, ?_⟩
  rw [he, List.length_append, List.length_take,
    show (strL "...").length = 3 from rfl]
  omega

theorem quoteOfSection_le (s : List Char) : (quoteOfSection s).length ≤ 2000 := by
  by_cases h : 2000 < (rawQuoteOfSection s).length
  · rw [(quoteOfSection_long s h).2]
  · have he : quoteOfSection s = rawQuoteOfSection s := by
      simp only [quoteOfSection]
      rw [if_neg h]
    rw [he]
    omega

/-- C6.  A quote whose raw text (first section line, stripped) exceeds 2000
characters is truncated to its first 1997 characters plus the 3-character
suffix `"..."`, total length exactly 2000; every extracted quote has length
at most 2000. -/
theorem c6_truncation :
    (∀ s : List Char, 2000 < (rawQuoteOfSection s).length →
      quoteOfSection s = (rawQuoteOfSection s).take 1997 ++ strL "..." ∧
      (quoteOfSection s).length = 2000) ∧
    (∀ s : List Char, (quoteOfSection s).length ≤ 2000) ∧
    (∀ stem content q : List Char,
      q ∈ (extract_quotes_from_file stem content).2.1 → q.length ≤ 2000) := by
  refine ⟨quoteOfSection_long, quoteOfSection_le, ?_⟩
  intro stem content q hq
  have hq2 : q ∈ (findSections content).map quoteOfSection := hq
  rcases List.mem_map.mp hq2 with ⟨sec, _, rfl⟩
  exact quoteOfSection_le sec

/-- C6 witness: the theorem at a 2001-character section and at short ones. -/
theorem c6_truncation_witness :
    quoteOfSection (List.replicate 2001 'a') =
      (rawQuoteOfSection (List.replicate 2001 'a')).take 1997 ++ strL "..." ∧
    (quoteOfSection (List.replicate 2001 'a')).length = 2000 ∧
    (quoteOfSection (strL "short")).length ≤ 2000 ∧
    (strL "Q").length ≤ 2000 := by
  have hlen : 2000 < (rawQuoteOfSection (List.replicate 2001 'a')).length := by
    rw [rawQuoteOfSection_replicate_a, List.length_replicate]
    omega
  exact ⟨(c6_truncation.1 _ hlen).1, (c6_truncation.1 _ hlen).2,
    c6_truncation.2.1 (strL "short"),
    c6_truncation.2.2 [] (strL "> Q") (strL "Q") (by decide)⟩

/-- C7.  When the file has fewer than 8 lines the metadata read raises
`IndexError`, the handler substitutes the filename stem as title and
`"Unknown"` as author, and the quotes and notes are still parsed from the
content. -/
theorem c7_metadata_fallback :
    ∀ stem content : List Char, (pyReadlines content).length < 8 →
      extract_quotes_from_file stem content =
        (content, (findSections content).map quoteOfSection,
         (findSections content).map noteOfSection,
         strL "Unknown" ++ strL " - " ++ stem) := by
  intro stem content h
  simp only [extract_quotes_from_file]
  rw [if_neg (by omega)]

/-- C7 witness: a 2-line file still yields its quote and note, with the
fallback title and author. -/
theorem c7_metadata_fallback_witness :
    extract_quotes_from_file (strL "mybook") (strL "> Q\n- n") =
      (strL "> Q\n- n", [strL "Q"], [strL "n"],
       strL "Unknown" ++ strL " - " ++ strL "mybook") := by
  have h := c7_metadata_fallback (strL "mybook") (strL "> Q\n- n") (by decide)
  exact h.trans (by decide)

/-! ## Row insertion lemmas -/

theorem pyEnumerate_length (start : Nat) (l : List α) :
    (pyEnumerate start l).length = l.length := by
  induction l generalizing start with
  | nil => rfl
  | cons a t ih => simp [pyEnumerate, ih]

theorem pyEnumerate_getD (l : List α) (dflt : α) :
    ∀ (start k : Nat), k < l.length →
      (pyEnumerate start l).getD k (0, dflt) = (start + k, l.getD k dflt) := by
  induction l with
  | nil => intro start k h; exact absurd h (by simp)
  | cons a t ih =>
    intro start k h
    cases k with
    | zero => simp [pyEnumerate]
    | succ k =>
      rw [show pyEnumerate start (a :: t) = (start, a) :: pyEnumerate (start + 1) t
        from rfl, List.getD_cons_succ, List.getD_cons_succ,
        ih (start + 1) k (by simp at h; omega)]
      refine congrArg (fun n => (n, t.getD k dflt)) (by omega)

theorem zip_getD (quotes notes : List (List Char)) :
    ∀ k, k < quotes.length → quotes.length = notes.length →
      (quotes.zip notes).getD k ([], []) = (quotes.getD k [], notes.getD k []) := by
  induction quotes generalizing notes with
  | nil => intro k h _; exact absurd h (by simp)
  | cons q qt ih =>
    intro k h hlen
    cases notes with
    | nil => simp at hlen
    | cons n nt =>
      cases k with
      | zero => rfl
      | succ k =>
        rw [List.zip_cons_cons, List.getD_cons_succ, List.getD_cons_succ,
          List.getD_cons_succ]
        exact ih nt k (by simp at h; omega) (by simp at hlen; omega)

theorem foldl_add_bool (bs : List Bool) :
    ∀ n : Nat, bs.foldl (fun s b => s + (if b then 1 else 0)) n =
      n + bs.countP (fun b => b) := by
  induction bs with
  | nil => intro n; simp
  | cons b t ih =>
    intro n
    rw [List.foldl_cons, ih, List.countP_cons]
    rcases b with _ | _
    · simp
    · simp
      omega

/-- C8.  For equal-length lists of N quotes and notes,
`add_quotes_to_database` submits exactly N work items, the k-th carrying the
1-based index k+1 with the k-th quote/note pair, and returns exactly the
number of page-creation calls the remote reports successful; the count is
invariant under any permutation (completion order) of the collected
results. -/
theorem c8_row_insertion :
    ∀ (create : Nat → List Char → List Char → Bool) (quotes notes : List (List Char)),
      quotes.length = notes.length →
      (quoteItems quotes notes).length = quotes.length ∧
      (∀ k, k < quotes.length →
        (quoteItems quotes notes).getD k (0, [], []) =
          (k + 1, quotes.getD k [], notes.getD k [])) ∧
      add_quotes_to_database create quotes notes =
        (quoteItems quotes notes).countP (fun it => create it.1 it.2.1 it.2.2) ∧
      (∀ results : List Bool,
        results.Perm ((quoteItems quotes notes).map (fun it => create it.1 it.2.1 it.2.2)) →
        results.foldl (fun s b => s + (if b then 1 else 0)) 0 =
          add_quotes_to_database create quotes notes) := by
  intro create quotes notes hlen
  have hcount : add_quotes_to_database create quotes notes =
      (quoteItems quotes notes).countP (fun it => create it.1 it.2.1 it.2.2) := by
    unfold add_quotes_to_database
    rw [foldl_add_bool, Nat.zero_add, List.countP_map]
    rfl
  refine ⟨?_, ?_, hcount, ?_⟩
  · unfold quoteItems
    rw [pyEnumerate_length, List.length_zip, hlen, Nat.min_self]
  · intro k hk
    unfold quoteItems
    rw [pyEnumerate_getD (quotes.zip notes) ([], []) 1 k
        (by rw [List.length_zip, hlen, Nat.min_self]; omega),
      zip_getD quotes notes k hk hlen, Nat.add_comm]
  · intro results hperm
    rw [foldl_add_bool, Nat.zero_add, hperm.countP_eq, hcount, List.countP_map]
    rfl

/-- C8 witness: three quote/note pairs with a mock that succeeds on odd
indices; two calls succeed, in any completion order. -/
theorem c8_row_insertion_witness :
    (quoteItems [strL "a", strL "b", strL "c"] [strL "x", strL "y", strL "z"]).length = 3 ∧
    (quoteItems [strL "a", strL "b", strL "c"] [strL "x", strL "y", strL "z"]).getD 1
      (0, [], []) = (2, strL "b", strL "y") ∧
    add_quotes_to_database (fun i _ _ => decide (i % 2 = 1))
      [strL "a", strL "b", strL "c"] [strL "x", strL "y", strL "z"] = 2 ∧
    [true, true, false].foldl (fun s b => s + (if b then 1 else 0)) 0 =
      add_quotes_to_database (fun i _ _ => decide (i % 2 = 1))
        [strL "a", strL "b", strL "c"] [strL "x", strL "y", strL "z"] := by
  have h := c8_row_insertion (fun i _ _ => decide (i % 2 = 1))
    [strL "a", strL "b", strL "c"] [strL "x", strL "y", strL "z"] (by decide)
  exact ⟨h.1.trans (by decide), (h.2.1 1 (by decide)).trans (by decide),
    (h.2.2.1).trans (by decide), h.2.2.2 [true, true, false] (by decide)⟩

/-- C9.  `update_page_with_transcript` first lists the page's children; when
the listing fails it returns false having made no further call.  When the
listing succeeds it deletes every listed block (failures of individual
deletions only logged — the returned boolean does not depend on them), then
issues one batched append whose payload is one paragraph block per chunk in
order, and returns exactly that append call's success. -/
theorem c9_replace_page_body :
    ∀ (gc : Option (List (List Char))) (db : List Char → Bool)
      (ap : List (List Char × List Char) → Bool) (chunks : List (List Char)),
      (gc = none →
        update_page_with_transcript gc db ap chunks =
          (false, [NotionEvent.getChildren])) ∧
      (∀ blocks, gc = some blocks →
        update_page_with_transcript gc db ap chunks =
          (ap (chunks.map paragraphBlock),
           NotionEvent.getChildren ::
             (blocks.map (fun b => NotionEvent.deleteBlock b (db b)) ++
              [NotionEvent.appendChildren (chunks.map paragraphBlock)]))) := by
  intro gc db ap chunks
  constructor
  · intro h
    subst h
    rfl
  · intro blocks h
    subst h
    rfl

/-- C9 witness: a page with two blocks, the second deletion failing, and a
successful append of two chunks. -/
theorem c9_replace_page_body_witness :
    update_page_with_transcript (some [strL "b1", strL "b2"])
        (fun b => decide (b = strL "b1")) (fun _ => true)
        [strL "c1", strL "c2"] =
      (true, [NotionEvent.getChildren,
              NotionEvent.deleteBlock (strL "b1") true,
              NotionEvent.deleteBlock (strL "b2") false,
              NotionEvent.appendChildren
                [(strL "paragraph", strL "c1"), (strL "paragraph", strL "c2")]]) ∧
    update_page_with_transcript none (fun _ => true) (fun _ => true) [strL "c"] =
      (false, [NotionEvent.getChildren]) := by
  constructor
  · have h := (c9_replace_page_body (some [strL "b1", strL "b2"])
      (fun b => decide (b = strL "b1")) (fun _ => true)
      [strL "c1", strL "c2"]).2 [strL "b1", strL "b2"] rfl
    exact h.trans (by decide)
  · exact (c9_replace_page_body none (fun _ => true) (fun _ => true) [strL "c"]).1 rfl

/-- C10.  The failure sentinel is ambiguous: for `svcAmbiguous` the
preferred-language fetch succeeds, yet the returned transcript text begins
with `"Error"`, so the orchestrator's `startswith("Error")` check classifies
it as a failure and skips the page update; and for `svcSpoof` a successful
fetch returns the very same string as a genuine invalid-URL failure, so
success and failure are indistinguishable from the return value alone. -/
theorem c10_sentinel_ambiguity :
    svcAmbiguous.getTranscriptEn (strL "abc") =
      some [strL "Error", strL "codes", strL "explained"] ∧
    extract_video_id urlDemo = some (strL "abc") ∧
    get_youtube_transcript svcAmbiguous urlDemo = strL "Error codes explained" ∧
    transcriptFailed (get_youtube_transcript svcAmbiguous urlDemo) = true ∧
    (∀ updatePage : List (List Char) → Bool,
      processTranscript updatePage (get_youtube_transcript svcAmbiguous urlDemo) = none) ∧
    get_youtube_transcript svcSpoof urlDemo =
      get_youtube_transcript svcSpoof (strL "https://example.com/video") := by
  refine ⟨rfl, by decide, by decide, by decide, ?_, by decide⟩
  intro updatePage
  have h : transcriptFailed (get_youtube_transcript svcAmbiguous urlDemo) = true := by
    decide
  simp [processTranscript, h]
